import Mathlib

/-!
Verification of the Mini-Logger CSV converter pipeline
(`src/Streamlit-csv-converter.py`) against its specification.

The script is a linear batch pipeline over one in-memory table:
load → normalize columns → parse time → clean rows → derive stats → render.
We embed the table operations shallowly:

* column labels are `String`s, cell values are `Cell` (a finite float,
  a string, or NaN/missing);
* floating-point values are modelled by exact rationals (`Rat`); `NaN`
  is modelled by `Option.none` (pandas coerces invalid entries to NaN/NaT);
* timestamps (`datetime64[ns]`) are rationals counting nanoseconds since
  the Unix epoch, `none` standing for `NaT`;
* pandas/geopy library primitives that the script merely calls
  (`pd.to_numeric` on strings, flexible string→datetime parsing,
  `geodesic(...).miles`) are passed in as explicit function parameters;
* `st.error(...); st.stop()` is an `Except.error`.
-/

/-- A raw cell of the table: a (finite) numeric value, a string, or
missing/NaN. -/
inductive Cell where
  | num (v : Rat)
  | str (s : String)
  | null
deriving DecidableEq, Repr

/-- A raw table as read from the CSV: a list of column labels and rows of
cells (row-major). -/
structure Table where
  headers : List String
  rows : List (List Cell)
deriving DecidableEq, Repr

/-! ### Column-name normalization (`normalize_columns`, lines 16-41) -/

/-- `c.lower().replace(" ", "").replace("_", "")`: lowercase and delete
every space and underscore. -/
def normKey (c : String) : String :=
  String.mk ((c.data.map Char.toLower).filterMap
    (fun ch => if ch = ' ' ∨ ch = '_' then none else some ch))

def latSyns : List String := ["lat", "latitude"]

def lngSyns : List String := ["lng", "lon", "longitude"]

def spdSyns : List String := ["speed", "speedmph", "speed_mph", "mph"]

def timeSyns : List String := ["time", "utcdatetime", "datetime", "timestamp"]

def rpmSyns : List String := ["rpm"]

/-- `find(syns)`: the first column (in column order) whose normalized key
lies in the synonym set. -/
def findCol (syns : List String) (cols : List String) : Option String :=
  cols.find? (fun c => syns.contains (normKey c))

/-- One entry of the `renames` dict.  The Python guard `if lat_col:` is
truthiness; a found column name always has a normalized key in a nonempty
synonym set and hence is nonempty, so truthiness coincides with the
`Option` match. -/
def renameEntry (syns : List String) (canon : String) (cols : List String) :
    List (String × String) :=
  match findCol syns cols with
  | some c => [(c, canon)]
  | none => []

/-- The `renames` dict built at lines 33-38. -/
def renames (cols : List String) : List (String × String) :=
  renameEntry latSyns "Lat" cols ++ renameEntry lngSyns "Lng" cols ++
  renameEntry spdSyns "Speed" cols ++ renameEntry timeSyns "Time" cols ++
  renameEntry rpmSyns "RPM" cols

/-- `df.rename(columns=renames)` applied to a single label: labels that
are keys of the dict are replaced, all others are untouched. -/
def applyRenames (rs : List (String × String)) (c : String) : String :=
  match rs.find? (fun p => p.1 == c) with
  | some p => p.2
  | none => c

/-- `normalize_columns` at the level of the header row. -/
def normalizeColumns (cols : List String) : List String :=
  cols.map (applyRenames (renames cols))

/-- `normalize_columns` on a whole table: `df.rename(columns=...)` returns
a table with renamed labels and untouched cells. -/
def normalizeColumnsTable (t : Table) : Table :=
  { headers := normalizeColumns t.headers, rows := t.rows }

/-- The synonym set (and canonical name) that a column name matches, if
any; the sets are pairwise disjoint, so at most one matches. -/
def canonFor (c : String) : Option (List String × String) :=
  if latSyns.contains (normKey c) then some (latSyns, "Lat")
  else if lngSyns.contains (normKey c) then some (lngSyns, "Lng")
  else if spdSyns.contains (normKey c) then some (spdSyns, "Speed")
  else if timeSyns.contains (normKey c) then some (timeSyns, "Time")
  else if rpmSyns.contains (normKey c) then some (rpmSyns, "RPM")
  else none

/-- Specification-side description of the renaming: a column is renamed to
its canonical name exactly when its normalized name matches a synonym set
and it is the first matching column in column order; every other column is
left unchanged. -/
def specRename (cols : List String) (c : String) : String :=
  match canonFor c with
  | some sc => if findCol sc.1 cols = some c then sc.2 else c
  | none => c

/-! ### Timestamp parsing (`parse_time_series`, lines 43-60)

A pandas Series is either of numeric dtype (entries: finite value or
NaN) or of object/string dtype (entries: string or missing).  Parsed
timestamps are rationals counting nanoseconds since the Unix epoch;
`none` is `NaT`.  `pd.to_datetime(..., errors="coerce")` coerces
out-of-range instants to `NaT`; `datetime64[ns]` is a signed 64-bit
nanosecond count. -/

inductive SeriesD where
  | nums (vs : List (Option Rat))
  | strs (vs : List (Option String))
deriving DecidableEq

/-- A parsed time Series: its timezone (`some ()` = tz-aware UTC, `none` =
tz-naive) and its values (ns since epoch; `none` = `NaT`). -/
structure TSeries where
  tz : Option Unit
  vals : List (Option Rat)
deriving DecidableEq

/-- Largest `datetime64[ns]` magnitude: `errors="coerce"` turns anything
beyond it into `NaT`. -/
def tsBoundNs : Rat := (9223372036854775807 : Rat)

/-- Convert one numeric epoch value with the chosen unit factor
(ns per unit) to a timestamp, coercing out-of-range values to `NaT`. -/
def numToNs (factor : Rat) (v : Rat) : Option Rat :=
  if tsBoundNs < v * factor ∨ v * factor < -tsBoundNs then none
  else some (v * factor)

def seriesLen (s : SeriesD) : Nat :=
  match s with
  | .nums vs => vs.length
  | .strs vs => vs.length

/-- `parse_time_series`.  `strP` models elementwise
`pd.to_datetime(·, utc=True, errors="coerce")` on a string: the UTC
instant it denotes, or `none` when unparseable.  For numeric input the
unit is `ms` when the maximum non-null value exceeds `1e11` (the `NaN`
maximum of an all-null column compares false, giving seconds), else `s`.
The final step strips the timezone, keeping the UTC clock values. -/
def parseTimeSeries (strP : String → Option Rat) (s : SeriesD) : TSeries :=
  let ts : TSeries :=
    match s with
    | .nums vs =>
      let vmax := (vs.filterMap id).max?
      let factor : Rat :=
        match vmax with
        | some m => if (100000000000 : Rat) < m then 1000000 else 1000000000
        | none => 1000000000
      ⟨some (), vs.map (fun o => o.bind (numToNs factor))⟩
    | .strs vs => ⟨some (), vs.map (fun o => o.bind strP)⟩
  match ts.tz with
  | some _ => ⟨none, ts.vals⟩
  | none => ⟨none, ts.vals⟩

/-! ### Row cleaning (`clean_dataframe`, lines 62-89)

After normalization the pipeline only reads the canonical columns, so a
table is modelled as presence flags for the five canonical columns plus
rows of their cells (absent columns leave their field unread). The Time
column has already been replaced by `parse_time_series`' output. -/

/-- A row of the normalized table, Time already parsed. -/
structure Row where
  lat : Cell
  lng : Cell
  time : Option Rat
  speed : Cell
  rpm : Cell
deriving DecidableEq, Repr

structure DataTable where
  hasLat : Bool
  hasLng : Bool
  hasTime : Bool
  hasSpeed : Bool
  hasRPM : Bool
  rows : List Row
deriving DecidableEq, Repr

/-- A row after `pd.to_numeric(..., errors="coerce")`: every numeric
column entry is a float or NaN. -/
structure CRow where
  lat : Option Rat
  lng : Option Rat
  time : Option Rat
  speed : Option Rat
  rpm : Option Rat
deriving DecidableEq, Repr

/-- The cleaned table: canonical numeric columns plus which optional
columns exist. -/
structure CTable where
  hasSpeed : Bool
  hasRPM : Bool
  rows : List CRow
deriving DecidableEq, Repr

/-- `st.error(...); st.stop()` outcomes of the pipeline. -/
inductive PipeError where
  | noTimeDetected
  | missingLat
  | missingLng
  | missingTime
  | noValidRows
deriving DecidableEq, Repr

/-- `pd.to_numeric(·, errors="coerce")` on one cell; `toNum` models its
parsing of numeric strings. -/
def toNumC (toNum : String → Option Rat) : Cell → Option Rat
  | .num v => some v
  | .str s => toNum s
  | .null => none

/-- The coercion loop at lines 64-66 applied to one row. -/
def coerceRow (toNum : String → Option Rat) (r : Row) : CRow :=
  { lat := toNumC toNum r.lat
  , lng := toNumC toNum r.lng
  , time := r.time
  , speed := toNumC toNum r.speed
  , rpm := toNumC toNum r.rpm }

/-- `df.dropna(subset=["Lat", "Lng", "Time"])` row predicate. -/
def dropnaRow (r : CRow) : Bool :=
  r.lat.isSome && r.lng.isSome && r.time.isSome

/-- `df["Lat"].between(-90, 90) & df["Lng"].between(-180, 180)`
(inclusive bounds). -/
def boundsRow (r : CRow) : Bool :=
  decide (-90 ≤ r.lat.getD 0 ∧ r.lat.getD 0 ≤ 90) &&
  decide (-180 ≤ r.lng.getD 0 ∧ r.lng.getD 0 ≤ 180)

/-- `df["Speed"] >= 0`; a NaN speed compares false and the row is
dropped. -/
def speedRow (r : CRow) : Bool :=
  match r.speed with
  | some v => decide (0 ≤ v)
  | none => false

/-- `df["RPM"] >= 0`; a NaN RPM compares false and the row is dropped. -/
def rpmRow (r : CRow) : Bool :=
  match r.rpm with
  | some v => decide (0 ≤ v)
  | none => false

/-- All four row conditions of `clean_dataframe` combined, the optional
ones guarded by column presence. -/
def validRow (hasSpeed hasRPM : Bool) (r : CRow) : Bool :=
  dropnaRow r && boundsRow r && (!hasSpeed || speedRow r) &&
    (!hasRPM || rpmRow r)

/-- `df.sort_values("Time")` key order: nondecreasing parsed time (every
sorted row has a non-null time, `getD` is just the sort key). -/
def timeLE (a b : CRow) : Prop :=
  a.time.getD 0 ≤ b.time.getD 0

instance : DecidableRel timeLE :=
  fun a b => inferInstanceAs (Decidable (a.time.getD 0 ≤ b.time.getD 0))

instance : IsTotal CRow timeLE :=
  ⟨fun a b => le_total (a.time.getD 0) (b.time.getD 0)⟩

instance : IsTrans CRow timeLE :=
  ⟨fun _ _ _ hab hbc => le_trans hab hbc⟩

/-- `clean_dataframe`: coerce the numeric columns, stop on a missing
required column (checked in the order Lat, Lng, Time), drop invalid rows
by the four successive filters, and sort by time. -/
def cleanDataframe (toNum : String → Option Rat) (t : DataTable) :
    Except PipeError CTable :=
  let crows := t.rows.map (coerceRow toNum)
  if t.hasLat = false then .error .missingLat
  else if t.hasLng = false then .error .missingLng
  else if t.hasTime = false then .error .missingTime
  else
    let r1 := crows.filter dropnaRow
    let r2 := r1.filter boundsRow
    let r3 := if t.hasSpeed then r2.filter speedRow else r2
    let r4 := if t.hasRPM then r3.filter rpmRow else r3
    .ok ⟨t.hasSpeed, t.hasRPM, List.insertionSort timeLE r4⟩

/-! ### Trip summary (`summarize_trip`, lines 156-183) -/

/-- The dict returned by `summarize_trip` (the `duration_str` rendering of
`duration` is presentation only and not modelled). -/
structure Summary where
  start : Option Rat
  endTime : Option Rat
  duration : Rat
  distanceMi : Rat
  topSpeed : Option Rat
  avgSpeed : Option Rat
deriving DecidableEq, Repr

/-- The accumulation loop `for i in range(1, len(df)): total += ...`,
carrying the running total and previous point. -/
def tripDistanceGo (dist : Rat × Rat → Rat × Rat → Rat) (acc : Rat)
    (prev : Rat × Rat) : List (Rat × Rat) → Rat
  | [] => acc
  | p :: ps => tripDistanceGo dist (acc + dist prev p) p ps

/-- Total distance of the point sequence, `dist` modelling
`geodesic(a, b).miles`. -/
def tripDistance (dist : Rat × Rat → Rat × Rat → Rat) :
    List (Rat × Rat) → Rat
  | [] => 0
  | p :: ps => tripDistanceGo dist 0 p ps

/-- Specification-side sum: the distances of consecutive pairs of points,
summed. -/
def pairDistSum (dist : Rat × Rat → Rat × Rat → Rat)
    (pts : List (Rat × Rat)) : Rat :=
  ((pts.zip pts.tail).map (fun q => dist q.1 q.2)).sum

/-- `summarize_trip`.  `max()`/`mean()` skip NaN entries, hence the
`filterMap`; the Speed statistics exist only when a Speed column does. -/
def summarizeTrip (dist : Rat × Rat → Rat × Rat → Rat) (t : CTable) :
    Summary :=
  let pts := t.rows.map (fun r => (r.lat.getD 0, r.lng.getD 0))
  let speeds := t.rows.filterMap (fun r => r.speed)
  { start := t.rows.head?.map (fun r => r.time.getD 0)
  , endTime := t.rows.getLast?.map (fun r => r.time.getD 0)
  , duration := (t.rows.getLast?.map (fun r => r.time.getD 0)).getD 0 -
      (t.rows.head?.map (fun r => r.time.getD 0)).getD 0
  , distanceMi := tripDistance dist pts
  , topSpeed := if t.hasSpeed then speeds.max? else none
  , avgSpeed := if t.hasSpeed then some (speeds.sum / (speeds.length : Rat))
      else none }

/-! ### The upload handler (lines 210-259) -/

/-- The processing of one upload after column normalization and time
parsing: check for a Time column (line 223), clean (line 229), stop when
nothing survives (line 231), else summarize. -/
def processUpload (toNum : String → Option Rat)
    (dist : Rat × Rat → Rat × Rat → Rat) (t : DataTable) :
    Except PipeError Summary :=
  if t.hasTime = false then .error .noTimeDetected
  else
    match cleanDataframe toNum t with
    | .error e => .error e
    | .ok ct =>
      if ct.rows.isEmpty then .error .noValidRows
      else .ok (summarizeTrip dist ct)

/-- An upload run seen from a Streamlit session: the handler is a pure
function of the uploaded table; prior uploads are listed only to state
that they cannot influence the result. -/
def runUpload (toNum : String → Option Rat)
    (dist : Rat × Rat → Rat × Rat → Rat) (priorUploads : List DataTable)
    (t : DataTable) : Except PipeError Summary :=
  processUpload toNum dist t

/-! ### CSV reading with headerless fallback (lines 210-218) -/

/-- The column names assigned to a headerless read:
`["Lat","Lng","Speed","Time","RPM"][:ncols]`. -/
def expectedCols : List String := ["Lat", "Lng", "Speed", "Time", "RPM"]

def headerlessAssign (t : Table) : Table :=
  { t with headers := expectedCols.take t.headers.length }

/-- The `try: pd.read_csv(...) except: seek(0); pd.read_csv(header=None)`
block.  `readH` models the read with inferred header (`none` = it raised),
`readNoH` the headerless fallback read.  The second component counts how
many `pd.read_csv` calls were made on the upload. -/
def readUpload (readH : String → Option Table) (readNoH : String → Table)
    (c : String) : Table × Nat :=
  match readH c with
  | some t => (t, 1)
  | none => (headerlessAssign (readNoH c), 2)

/-! ### Render stages after a successful pipeline run (lines 235-259) -/

inductive Stage where
  | summaryStats
  | mapRender
  | chartRender
  | csvExport
deriving DecidableEq, Repr

/-- The stages the UI runs, in order, once the cleaned table is nonempty:
summary metrics, the folium map, the Speed/RPM chart.  The script has no
further stage. -/
def uiStages : List Stage := [Stage.summaryStats, Stage.mapRender, Stage.chartRender]

/-! ### Helper lemmas -/

theorem pairDistSum_nil (dist : Rat × Rat → Rat × Rat → Rat) :
    pairDistSum dist [] = 0 := by
  simp [pairDistSum]

theorem pairDistSum_single (dist : Rat × Rat → Rat × Rat → Rat)
    (a : Rat × Rat) : pairDistSum dist [a] = 0 := by
  simp [pairDistSum]

theorem pairDistSum_cons₂ (dist : Rat × Rat → Rat × Rat → Rat)
    (a b : Rat × Rat) (l : List (Rat × Rat)) :
    pairDistSum dist (a :: b :: l) = dist a b + pairDistSum dist (b :: l) := by
  simp [pairDistSum]

theorem tripDistanceGo_eq (dist : Rat × Rat → Rat × Rat → Rat) :
    ∀ (ps : List (Rat × Rat)) (acc : Rat) (prev : Rat × Rat),
      tripDistanceGo dist acc prev ps = acc + pairDistSum dist (prev :: ps)
  | [], acc, prev => by simp [tripDistanceGo, pairDistSum_single]
  | p :: rest, acc, prev => by
    rw [tripDistanceGo, tripDistanceGo_eq dist rest, pairDistSum_cons₂,
      add_assoc]

theorem tripDistance_eq_pairDistSum (dist : Rat × Rat → Rat × Rat → Rat)
    (pts : List (Rat × Rat)) : tripDistance dist pts = pairDistSum dist pts := by
  cases pts with
  | nil => simp [tripDistance, pairDistSum_nil]
  | cons p ps => rw [tripDistance, tripDistanceGo_eq, zero_add]

/-! ### The claims -/

/-- Claim C9: `normalize_columns` changes only column labels: the returned
table has the same rows (hence all cell values identical) and the same
number of columns as the input. -/
theorem normalize_columns_frame (t : Table) :
    (normalizeColumnsTable t).rows = t.rows ∧
    (normalizeColumnsTable t).headers.length = t.headers.length := by
  refine ⟨rfl, ?_⟩
  simp [normalizeColumnsTable, normalizeColumns]

/-- Claim C7, counterexample: the script has no export stage at all; the
stages run after a successful pipeline pass are summary metrics, map and
chart rendering only. -/
theorem export_stage_counterexample : Stage.csvExport ∉ uiStages := by
  decide

/-- Claim C7, amended: the pipeline's final stage is chart rendering; the
provided script contains no CSV/HTML export stage. -/
theorem ui_stages_end_with_charts :
    uiStages.getLast? = some Stage.chartRender ∧
      Stage.csvExport ∉ uiStages := by
  decide

/-- Claim C6, counterexample: it is not true that the CSV is never
re-read — when the first `pd.read_csv` raises, the handler seeks back and
reads the file a second time (headerless), so two read attempts occur. -/
theorem csv_reread_counterexample :
    ¬ (∀ (readH : String → Option Table) (readNoH : String → Table)
        (c : String), (readUpload readH readNoH c).2 ≤ 1) := by
  intro h
  have h2 := h (fun _ => none) (fun _ => ⟨[], []⟩) ""
  simp [readUpload] at h2

/-- Claim C6, amended: per upload event the CSV is read once when the
header-inferring read succeeds, and exactly twice when it raises (one
headerless fallback re-read); in every case at most two read attempts are
made, and the rest of the pipeline runs once on the resulting table. -/
theorem csv_read_fallback_bound (readH : String → Option Table)
    (readNoH : String → Table) (c : String) :
    (readUpload readH readNoH c).2 = (if (readH c).isSome then 1 else 2) ∧
      (readUpload readH readNoH c).2 ≤ 2 := by
  cases h : readH c <;> simp [readUpload, h]

/-- Claim C8: the pipeline is stateless and deterministic — the result of
processing an upload is a pure function of the uploaded table (and of the
library primitives), with no dependence on previously uploaded tables or
any other ambient state. -/
theorem upload_stateless (toNum : String → Option Rat)
    (dist : Rat × Rat → Rat × Rat → Rat) (p₁ p₂ : List DataTable)
    (t : DataTable) :
    runUpload toNum dist p₁ t = runUpload toNum dist p₂ t ∧
      runUpload toNum dist p₁ t = processUpload toNum dist t :=
  ⟨rfl, rfl⟩

/-- Claim C2: the total trip distance reported by `summarize_trip` is the
sum, over consecutive row pairs, of the point-to-point distances (the
`geodesic(·,·).miles` primitive `dist`); for a one-row table it is `0`. -/
theorem trip_distance_consecutive_sum (dist : Rat × Rat → Rat × Rat → Rat)
    (t : CTable) :
    (summarizeTrip dist t).distanceMi =
        pairDistSum dist (t.rows.map (fun r => (r.lat.getD 0, r.lng.getD 0))) ∧
      (t.rows.length = 1 → (summarizeTrip dist t).distanceMi = 0) := by
  constructor
  · exact tripDistance_eq_pairDistSum dist _
  · intro h
    obtain ⟨r, hr⟩ := List.length_eq_one.mp h
    simp [summarizeTrip, hr, tripDistance, tripDistanceGo]

def unitDist : Rat × Rat → Rat × Rat → Rat := fun _ _ => 1

def oneRowCT : CTable :=
  ⟨true, false, [⟨some 10, some 20, some 0, some 5, none⟩]⟩

/-- Witness for C2 at a concrete one-row table. -/
theorem trip_distance_consecutive_sum_witness :
    (summarizeTrip unitDist oneRowCT).distanceMi = 0 :=
  (trip_distance_consecutive_sum unitDist oneRowCT).2 (by decide)

/-- Claim C1: for a numeric Time series the values are interpreted as
milliseconds since the epoch when the maximum non-null value exceeds
`1e11` and as seconds otherwise (`numToNs 1000000` resp.
`numToNs 1000000000` maps a value to its nanosecond instant, coercing
out-of-range values to `NaT`); for a non-numeric series every entry is
parsed as a flexible datetime string in UTC (the primitive `strP`). -/
theorem parse_time_unit_heuristic (strP : String → Option Rat)
    (vs : List (Option Rat)) (svs : List (Option String)) :
    (∀ m : Rat, (vs.filterMap id).max? = some m → (100000000000 : Rat) < m →
      (parseTimeSeries strP (SeriesD.nums vs)).vals =
        vs.map (fun o => o.bind (numToNs 1000000))) ∧
    (∀ m : Rat, (vs.filterMap id).max? = some m → m ≤ (100000000000 : Rat) →
      (parseTimeSeries strP (SeriesD.nums vs)).vals =
        vs.map (fun o => o.bind (numToNs 1000000000))) ∧
    (parseTimeSeries strP (SeriesD.strs svs)).vals =
      svs.map (fun o => o.bind strP) := by
  refine ⟨?_, ?_, rfl⟩
  · intro m hm hgt
    simp [parseTimeSeries, hm, if_pos hgt]
  · intro m hm hle
    simp [parseTimeSeries, hm, not_lt.mpr hle]

def strP0 : String → Option Rat := fun _ => none

def numsW : List (Option Rat) := [some 200000000000, none]

/-- Witness for C1: a series whose maximum value `2e11` exceeds `1e11` is
parsed with the millisecond unit. -/
theorem parse_time_unit_heuristic_witness :
    (parseTimeSeries strP0 (SeriesD.nums numsW)).vals =
      numsW.map (fun o => o.bind (numToNs 1000000)) :=
  (parse_time_unit_heuristic strP0 numsW []).1 200000000000 (by decide)
    (by decide)

/-- Claim C10: `parse_time_series` is total — for every input series it
returns a series of the same length, the result is always timezone-naive,
and entries that cannot be parsed (missing entries, strings the flexible
parser rejects, NaN numeric entries) become `NaT` rather than an error. -/
theorem parse_time_total_tz_naive (strP : String → Option Rat)
    (s : SeriesD) :
    (parseTimeSeries strP s).tz = none ∧
    (parseTimeSeries strP s).vals.length = seriesLen s ∧
    (∀ (vs : List (Option String)) (i : Nat), s = SeriesD.strs vs →
      (∀ str0, vs[i]? = some (some str0) → strP str0 = none →
        (parseTimeSeries strP s).vals[i]? = some none) ∧
      (vs[i]? = some none → (parseTimeSeries strP s).vals[i]? = some none)) ∧
    (∀ (vs : List (Option Rat)) (i : Nat), s = SeriesD.nums vs →
      vs[i]? = some none → (parseTimeSeries strP s).vals[i]? = some none) := by
  refine ⟨?_, ?_, ?_, ?_⟩
  · cases s <;> rfl
  · cases s <;> simp [parseTimeSeries, seriesLen]
  · rintro vs i rfl
    constructor
    · intro str0 hv hp
      simp [parseTimeSeries, hv, hp]
    · intro hv
      simp [parseTimeSeries, hv]
  · rintro vs i rfl hv
    simp [parseTimeSeries, hv]

def strsW : List (Option String) := [some "notatime"]

/-- Witness for C10: an unparseable string entry is coerced to `NaT`. -/
theorem parse_time_total_tz_naive_witness :
    (parseTimeSeries strP0 (SeriesD.strs strsW)).vals[0]? = some none :=
  ((parse_time_total_tz_naive strP0 (SeriesD.strs strsW)).2.2.1 strsW 0
    rfl).1 "notatime" (by decide) (by decide)

/-- The four successive row filters of `clean_dataframe` equal one pass
with the combined predicate `validRow`. -/
theorem chainFilter_eq_validRow (hs hrp : Bool) (l : List CRow) :
    (if hrp then
        (if hs then ((l.filter dropnaRow).filter boundsRow).filter speedRow
         else (l.filter dropnaRow).filter boundsRow).filter rpmRow
      else
        (if hs then ((l.filter dropnaRow).filter boundsRow).filter speedRow
         else (l.filter dropnaRow).filter boundsRow)) =
      l.filter (validRow hs hrp) := by
  cases hs <;> cases hrp <;>
    simp only [Bool.false_eq_true, if_false, if_true, List.filter_filter] <;>
    refine List.filter_congr (fun a _ => ?_) <;>
    simp only [validRow] <;>
    cases dropnaRow a <;> cases boundsRow a <;> cases speedRow a <;>
      cases rpmRow a <;> rfl

/-- Closed form of `clean_dataframe`: the required-column checks, then one
combined filter pass followed by the sort. -/
theorem cleanDataframe_eq (toNum : String → Option Rat) (t : DataTable) :
    cleanDataframe toNum t =
      (if t.hasLat = false then .error .missingLat
       else if t.hasLng = false then .error .missingLng
       else if t.hasTime = false then .error .missingTime
       else .ok ⟨t.hasSpeed, t.hasRPM,
         List.insertionSort timeLE
           ((t.rows.map (coerceRow toNum)).filter
             (validRow t.hasSpeed t.hasRPM))⟩) := by
  unfold cleanDataframe
  split
  · rfl
  split
  · rfl
  split
  · rfl
  rw [← chainFilter_eq_validRow]

/-- Claim C3: every row of the cleaned table has non-null Lat, Lng and
Time, Lat within `[-90, 90]`, Lng within `[-180, 180]`, a nonnegative
Speed whenever a Speed column is present and a nonnegative RPM whenever an
RPM column is present; the rows are in nondecreasing Time order; and the
output is exactly (a permutation of) the coerced input rows satisfying
those conditions — every violating row is dropped. -/
theorem clean_dataframe_invariants (toNum : String → Option Rat)
    (t : DataTable) (ct : CTable)
    (h : cleanDataframe toNum t = .ok ct) :
    (∀ r ∈ ct.rows,
      r.lat.isSome = true ∧ r.lng.isSome = true ∧ r.time.isSome = true ∧
      (-90 ≤ r.lat.getD 0 ∧ r.lat.getD 0 ≤ 90) ∧
      (-180 ≤ r.lng.getD 0 ∧ r.lng.getD 0 ≤ 180) ∧
      (t.hasSpeed = true → ∃ v, r.speed = some v ∧ 0 ≤ v) ∧
      (t.hasRPM = true → ∃ v, r.rpm = some v ∧ 0 ≤ v)) ∧
    List.Sorted timeLE ct.rows ∧
    ct.rows.Perm
      ((t.rows.map (coerceRow toNum)).filter
        (validRow t.hasSpeed t.hasRPM)) := by
  rw [cleanDataframe_eq] at h
  split at h
  · simp at h
  split at h
  · simp at h
  split at h
  · simp at h
  rw [Except.ok.injEq] at h
  subst h
  refine ⟨?_, List.sorted_insertionSort timeLE _,
    List.perm_insertionSort timeLE _⟩
  intro r hrmem
  rw [List.mem_insertionSort, List.mem_filter] at hrmem
  obtain ⟨-, hv⟩ := hrmem
  simp only [validRow, Bool.and_eq_true, Bool.or_eq_true,
    Bool.not_eq_true'] at hv
  obtain ⟨⟨⟨hdrop, hbound⟩, hspd⟩, hrpm⟩ := hv
  simp only [dropnaRow, Bool.and_eq_true] at hdrop
  obtain ⟨⟨hlat, hlng⟩, htime⟩ := hdrop
  simp only [boundsRow, Bool.and_eq_true, decide_eq_true_eq] at hbound
  refine ⟨hlat, hlng, htime, hbound.1, hbound.2, ?_, ?_⟩
  · intro hs
    rcases hspd with hfalse | hsp
    · rw [hs] at hfalse; cases hfalse
    · cases hc : r.speed with
      | none => simp [speedRow, hc] at hsp
      | some v =>
        simp only [speedRow, hc, decide_eq_true_eq] at hsp
        exact ⟨v, rfl, hsp⟩
  · intro hrpflag
    rcases hrpm with hfalse | hrp
    · rw [hrpflag] at hfalse; cases hfalse
    · cases hc : r.rpm with
      | none => simp [rpmRow, hc] at hrp
      | some v =>
        simp only [rpmRow, hc, decide_eq_true_eq] at hrp
        exact ⟨v, rfl, hrp⟩

def toNum0 : String → Option Rat := fun _ => none

def tblW : DataTable :=
  ⟨true, true, true, true, false,
    [⟨Cell.num 10, Cell.num 20, some 5, Cell.num 3, Cell.null⟩,
     ⟨Cell.num 11, Cell.num 21, some 2, Cell.num 4, Cell.null⟩,
     ⟨Cell.num 200, Cell.num 20, some 1, Cell.num 1, Cell.null⟩]⟩

def cleanedW : CTable :=
  ⟨true, false,
    [⟨some 11, some 21, some 2, some 4, none⟩,
     ⟨some 10, some 20, some 5, some 3, none⟩]⟩

/-- Witness for C3: a three-row table whose out-of-range row is dropped
and whose surviving rows come out time-sorted. -/
theorem clean_dataframe_invariants_witness :
    cleanDataframe toNum0 tblW = Except.ok cleanedW ∧
      List.Sorted timeLE cleanedW.rows :=
  ⟨by rfl,
    (clean_dataframe_invariants toNum0 tblW cleanedW (by rfl)).2.1⟩

/-- Dropping the Speed filter keeps every row the full filter kept. -/
theorem validRow_speed_relax (hs hrp : Bool) (r : CRow)
    (h : validRow hs hrp r = true) : validRow false hrp r = true := by
  revert h
  cases hs <;> simp [validRow] <;> tauto

/-- Dropping the RPM filter keeps every row the full filter kept. -/
theorem validRow_rpm_relax (hs hrp : Bool) (r : CRow)
    (h : validRow hs hrp r = true) : validRow hs false r = true := by
  revert h
  cases hrp <;> simp [validRow] <;> tauto

theorem filter_empty_of_relax {l : List CRow} {p q : CRow → Bool}
    (himp : ∀ r, p r = true → q r = true) (h : l.filter q = []) :
    l.filter p = [] := by
  rw [List.filter_eq_nil_iff] at *
  exact fun a ha hpa => h a ha (himp a hpa)

theorem insertionSort_timeLE_eq_nil_iff (l : List CRow) :
    List.insertionSort timeLE l = [] ↔ l = [] := by
  constructor
  · intro h
    have hl := (List.perm_insertionSort timeLE l).length_eq
    rw [h] at hl
    exact List.length_eq_zero.mp hl.symm
  · rintro rfl
    rfl

/-- Closed form of the upload handler after normalization and time
parsing: the UI Time check, the three required-column checks, the
no-surviving-rows check, then the summary. -/
theorem processUpload_eq (toNum : String → Option Rat)
    (dist : Rat × Rat → Rat × Rat → Rat) (t : DataTable) :
    processUpload toNum dist t =
      (if t.hasTime = false then .error .noTimeDetected
       else if t.hasLat = false then .error .missingLat
       else if t.hasLng = false then .error .missingLng
       else if ((t.rows.map (coerceRow toNum)).filter
           (validRow t.hasSpeed t.hasRPM)) = [] then .error .noValidRows
       else .ok (summarizeTrip dist ⟨t.hasSpeed, t.hasRPM,
         List.insertionSort timeLE
           ((t.rows.map (coerceRow toNum)).filter
             (validRow t.hasSpeed t.hasRPM))⟩)) := by
  unfold processUpload
  rw [cleanDataframe_eq]
  by_cases ht : t.hasTime = false
  · simp [ht]
  by_cases hla : t.hasLat = false
  · simp [ht, hla]
  by_cases hlg : t.hasLng = false
  · simp [ht, hla, hlg]
  by_cases hL : ((t.rows.map (coerceRow toNum)).filter
      (validRow t.hasSpeed t.hasRPM)) = []
  · simp [ht, hla, hlg, hL, List.isEmpty_iff,
      insertionSort_timeLE_eq_nil_iff]
  · simp [ht, hla, hlg, hL, List.isEmpty_iff,
      insertionSort_timeLE_eq_nil_iff]

/-- When the handler stops with an error, characterized by the input. -/
theorem processUpload_isError_iff (toNum : String → Option Rat)
    (dist : Rat × Rat → Rat × Rat → Rat) (t : DataTable) :
    (∃ e, processUpload toNum dist t = .error e) ↔
      (t.hasLat = false ∨ t.hasLng = false ∨ t.hasTime = false ∨
        ((t.rows.map (coerceRow toNum)).filter
          (validRow t.hasSpeed t.hasRPM)) = []) := by
  rw [processUpload_eq]
  by_cases ht : t.hasTime = false
  · simp [ht]
  by_cases hla : t.hasLat = false
  · simp [ht, hla]
  by_cases hlg : t.hasLng = false
  · simp [ht, hla, hlg]
  by_cases hL : ((t.rows.map (coerceRow toNum)).filter
      (validRow t.hasSpeed t.hasRPM)) = []
  · simp [ht, hla, hlg, hL]
  · simp [ht, hla, hlg, hL]

/-- Claim C5: processing stops with an error exactly when Lat, Lng or
Time is absent after normalization or no row survives cleaning; the
absence of a Speed or RPM column never introduces an error, and with no
Speed column the summary's Speed statistics are `none` (rendered as "—")
rather than failing. -/
theorem process_upload_error_iff (toNum : String → Option Rat)
    (dist : Rat × Rat → Rat × Rat → Rat) (t : DataTable) :
    ((∃ e, processUpload toNum dist t = .error e) ↔
      (t.hasLat = false ∨ t.hasLng = false ∨ t.hasTime = false ∨
        ((t.rows.map (coerceRow toNum)).filter
          (validRow t.hasSpeed t.hasRPM)) = [])) ∧
    (∀ s, processUpload toNum dist t = .ok s → t.hasSpeed = false →
      s.topSpeed = none ∧ s.avgSpeed = none) ∧
    ((∃ e, processUpload toNum dist { t with hasSpeed := false } =
        .error e) → ∃ e, processUpload toNum dist t = .error e) ∧
    ((∃ e, processUpload toNum dist { t with hasRPM := false } =
        .error e) → ∃ e, processUpload toNum dist t = .error e) := by
  refine ⟨processUpload_isError_iff toNum dist t, ?_, ?_, ?_⟩
  · intro s hok hsf
    rw [processUpload_eq] at hok
    split at hok
    · simp at hok
    split at hok
    · simp at hok
    split at hok
    · simp at hok
    split at hok
    · simp at hok
    rw [Except.ok.injEq] at hok
    subst hok
    simp [summarizeTrip, hsf]
  · intro hmod
    rw [processUpload_isError_iff] at hmod ⊢
    rcases hmod with h | h | h | h
    · exact Or.inl h
    · exact Or.inr (Or.inl h)
    · exact Or.inr (Or.inr (Or.inl h))
    · refine Or.inr (Or.inr (Or.inr ?_))
      exact filter_empty_of_relax
        (fun r => validRow_speed_relax t.hasSpeed t.hasRPM r) h
  · intro hmod
    rw [processUpload_isError_iff] at hmod ⊢
    rcases hmod with h | h | h | h
    · exact Or.inl h
    · exact Or.inr (Or.inl h)
    · exact Or.inr (Or.inr (Or.inl h))
    · refine Or.inr (Or.inr (Or.inr ?_))
      exact filter_empty_of_relax
        (fun r => validRow_rpm_relax t.hasSpeed t.hasRPM r) h

def tblNoLat : DataTable := ⟨false, true, true, false, false, []⟩

/-- Witness for C5: a table with no Lat column makes the handler stop
with an error. -/
theorem process_upload_error_iff_witness :
    ∃ e, processUpload toNum0 unitDist tblNoLat = Except.error e :=
  (process_upload_error_iff toNum0 unitDist tblNoLat).1.mpr (Or.inl rfl)

/-! ### Claim C4: normalize_columns renames exactly the first matches -/

theorem contains_mem {l : List String} {s : String}
    (h : l.contains s = true) : s ∈ l := by
  simpa [List.contains] using h

theorem not_contains_not_mem {l : List String} {s : String}
    (h : ¬ l.contains s = true) : s ∉ l := by
  intro hm
  exact h (by simpa [List.contains] using hm)

/-- The five synonym sets are pairwise disjoint. -/
theorem synsDisj :
    (∀ x ∈ latSyns, x ∉ lngSyns) ∧ (∀ x ∈ latSyns, x ∉ spdSyns) ∧
    (∀ x ∈ latSyns, x ∉ timeSyns) ∧ (∀ x ∈ latSyns, x ∉ rpmSyns) ∧
    (∀ x ∈ lngSyns, x ∉ spdSyns) ∧ (∀ x ∈ lngSyns, x ∉ timeSyns) ∧
    (∀ x ∈ lngSyns, x ∉ rpmSyns) ∧ (∀ x ∈ spdSyns, x ∉ timeSyns) ∧
    (∀ x ∈ spdSyns, x ∉ rpmSyns) ∧ (∀ x ∈ timeSyns, x ∉ rpmSyns) := by
  decide

theorem findCol_mem {syns cols : List String} {c : String}
    (h : findCol syns cols = some c) : normKey c ∈ syns := by
  have hp := List.find?_some h
  exact contains_mem hp

theorem renameEntry_key {syns : List String} {canon : String}
    {cols : List String} {p : String × String}
    (hp : p ∈ renameEntry syns canon cols) :
    findCol syns cols = some p.1 ∧ normKey p.1 ∈ syns ∧ p.2 = canon := by
  unfold renameEntry at hp
  cases h : findCol syns cols with
  | none => rw [h] at hp; cases hp
  | some c =>
    rw [h] at hp
    rw [List.mem_singleton] at hp
    subst hp
    exact ⟨rfl, findCol_mem h, rfl⟩

/-- Every key of the `renames` dict is the first match of one of the five
synonym sets, paired with that set's canonical name. -/
theorem renames_key {cols : List String} {p : String × String}
    (hp : p ∈ renames cols) :
    (findCol latSyns cols = some p.1 ∧ normKey p.1 ∈ latSyns ∧
      p.2 = "Lat") ∨
    (findCol lngSyns cols = some p.1 ∧ normKey p.1 ∈ lngSyns ∧
      p.2 = "Lng") ∨
    (findCol spdSyns cols = some p.1 ∧ normKey p.1 ∈ spdSyns ∧
      p.2 = "Speed") ∨
    (findCol timeSyns cols = some p.1 ∧ normKey p.1 ∈ timeSyns ∧
      p.2 = "Time") ∨
    (findCol rpmSyns cols = some p.1 ∧ normKey p.1 ∈ rpmSyns ∧
      p.2 = "RPM") := by
  unfold renames at hp
  simp only [List.mem_append] at hp
  rcases hp with (((hp | hp) | hp) | hp) | hp
  · exact Or.inl (renameEntry_key hp)
  · exact Or.inr (Or.inl (renameEntry_key hp))
  · exact Or.inr (Or.inr (Or.inl (renameEntry_key hp)))
  · exact Or.inr (Or.inr (Or.inr (Or.inl (renameEntry_key hp))))
  · exact Or.inr (Or.inr (Or.inr (Or.inr (renameEntry_key hp))))

theorem applyRenames_eq_self {rs : List (String × String)} {c : String}
    (h : ∀ p ∈ rs, p.1 ≠ c) : applyRenames rs c = c := by
  unfold applyRenames
  have hn : rs.find? (fun p => p.1 == c) = none :=
    List.find?_eq_none.mpr (fun p hp => by simp [h p hp])
  rw [hn]

theorem applyRenames_skip {rs1 rs2 : List (String × String)} {c : String}
    (h : ∀ p ∈ rs1, p.1 ≠ c) :
    applyRenames (rs1 ++ rs2) c = applyRenames rs2 c := by
  unfold applyRenames
  rw [List.find?_append]
  have hn : rs1.find? (fun p => p.1 == c) = none :=
    List.find?_eq_none.mpr (fun p hp => by simp [h p hp])
  rw [hn, Option.none_or]

theorem applyRenames_head (c canon : String) (rs : List (String × String)) :
    applyRenames ((c, canon) :: rs) c = canon := by
  unfold applyRenames
  simp

/-- When the dict holds `(c, canon)` and no other entry has key `c`,
renaming `c` yields `canon`. -/
theorem applyRenames_of_unique {rs : List (String × String)}
    {c canon : String} (hmem : (c, canon) ∈ rs)
    (huniq : ∀ p ∈ rs, p.1 = c → p = (c, canon)) :
    applyRenames rs c = canon := by
  unfold applyRenames
  have hsome : (rs.find? (fun p => p.1 == c)).isSome := by
    rw [List.find?_isSome]
    exact ⟨(c, canon), hmem, by simp⟩
  cases hq : rs.find? (fun p => p.1 == c) with
  | none => rw [hq] at hsome; cases hsome
  | some q =>
    have h1 := List.find?_some hq
    have h2 := List.mem_of_find?_eq_some hq
    have hq2 : q = (c, canon) := huniq q h2 (by simpa using h1)
    rw [hq2]

/-- Pointwise correctness of `normalize_columns`: renaming one label
agrees with the claim's description of the renaming. -/
theorem applyRenames_renames (cols : List String) (c : String) :
    applyRenames (renames cols) c = specRename cols c := by
  obtain ⟨d12, d13, d14, d15, d23, d24, d25, d34, d35, d45⟩ := synsDisj
  unfold specRename canonFor
  by_cases h1 : latSyns.contains (normKey c) = true
  · rw [if_pos h1]
    show applyRenames (renames cols) c =
      if findCol latSyns cols = some c then "Lat" else c
    have hm1 : normKey c ∈ latSyns := contains_mem h1
    by_cases hf : findCol latSyns cols = some c
    · rw [if_pos hf]
      apply applyRenames_of_unique
      · simp [renames, renameEntry, hf, List.mem_append]
      · intro p hp hpc
        rcases renames_key hp with ⟨hfj, _, hc2⟩ | ⟨_, hkj, _⟩ |
            ⟨_, hkj, _⟩ | ⟨_, hkj, _⟩ | ⟨_, hkj, _⟩
        · obtain ⟨p1, p2⟩ := p
          simp only at hpc hc2
          rw [hpc, hc2]
        · rw [hpc] at hkj; exact absurd hkj (d12 _ hm1)
        · rw [hpc] at hkj; exact absurd hkj (d13 _ hm1)
        · rw [hpc] at hkj; exact absurd hkj (d14 _ hm1)
        · rw [hpc] at hkj; exact absurd hkj (d15 _ hm1)
    · rw [if_neg hf]
      apply applyRenames_eq_self
      intro p hp heq
      rcases renames_key hp with ⟨hfj, _, _⟩ | ⟨_, hkj, _⟩ |
          ⟨_, hkj, _⟩ | ⟨_, hkj, _⟩ | ⟨_, hkj, _⟩
      · rw [heq] at hfj; exact hf hfj
      · rw [heq] at hkj; exact absurd hkj (d12 _ hm1)
      · rw [heq] at hkj; exact absurd hkj (d13 _ hm1)
      · rw [heq] at hkj; exact absurd hkj (d14 _ hm1)
      · rw [heq] at hkj; exact absurd hkj (d15 _ hm1)
  · rw [if_neg h1]
    have hn1 : normKey c ∉ latSyns := not_contains_not_mem h1
    by_cases h2 : lngSyns.contains (normKey c) = true
    · rw [if_pos h2]
      show applyRenames (renames cols) c =
        if findCol lngSyns cols = some c then "Lng" else c
      have hm2 : normKey c ∈ lngSyns := contains_mem h2
      by_cases hf : findCol lngSyns cols = some c
      · rw [if_pos hf]
        apply applyRenames_of_unique
        · simp [renames, renameEntry, hf, List.mem_append]
        · intro p hp hpc
          rcases renames_key hp with ⟨_, hkj, _⟩ | ⟨hfj, _, hc2⟩ |
              ⟨_, hkj, _⟩ | ⟨_, hkj, _⟩ | ⟨_, hkj, _⟩
          · rw [hpc] at hkj; exact absurd hkj hn1
          · obtain ⟨p1, p2⟩ := p
            simp only at hpc hc2
            rw [hpc, hc2]
          · rw [hpc] at hkj; exact absurd hkj (d23 _ hm2)
          · rw [hpc] at hkj; exact absurd hkj (d24 _ hm2)
          · rw [hpc] at hkj; exact absurd hkj (d25 _ hm2)
      · rw [if_neg hf]
        apply applyRenames_eq_self
        intro p hp heq
        rcases renames_key hp with ⟨_, hkj, _⟩ | ⟨hfj, _, _⟩ |
            ⟨_, hkj, _⟩ | ⟨_, hkj, _⟩ | ⟨_, hkj, _⟩
        · rw [heq] at hkj; exact absurd hkj hn1
        · rw [heq] at hfj; exact hf hfj
        · rw [heq] at hkj; exact absurd hkj (d23 _ hm2)
        · rw [heq] at hkj; exact absurd hkj (d24 _ hm2)
        · rw [heq] at hkj; exact absurd hkj (d25 _ hm2)
    · rw [if_neg h2]
      have hn2 : normKey c ∉ lngSyns := not_contains_not_mem h2
      by_cases h3 : spdSyns.contains (normKey c) = true
      · rw [if_pos h3]
        show applyRenames (renames cols) c =
          if findCol spdSyns cols = some c then "Speed" else c
        have hm3 : normKey c ∈ spdSyns := contains_mem h3
        by_cases hf : findCol spdSyns cols = some c
        · rw [if_pos hf]
          apply applyRenames_of_unique
          · simp [renames, renameEntry, hf, List.mem_append]
          · intro p hp hpc
            rcases renames_key hp with ⟨_, hkj, _⟩ | ⟨_, hkj, _⟩ |
                ⟨hfj, _, hc2⟩ | ⟨_, hkj, _⟩ | ⟨_, hkj, _⟩
            · rw [hpc] at hkj; exact absurd hkj hn1
            · rw [hpc] at hkj; exact absurd hkj hn2
            · obtain ⟨p1, p2⟩ := p
              simp only at hpc hc2
              rw [hpc, hc2]
            · rw [hpc] at hkj; exact absurd hkj (d34 _ hm3)
            · rw [hpc] at hkj; exact absurd hkj (d35 _ hm3)
        · rw [if_neg hf]
          apply applyRenames_eq_self
          intro p hp heq
          rcases renames_key hp with ⟨_, hkj, _⟩ | ⟨_, hkj, _⟩ |
              ⟨hfj, _, _⟩ | ⟨_, hkj, _⟩ | ⟨_, hkj, _⟩
          · rw [heq] at hkj; exact absurd hkj hn1
          · rw [heq] at hkj; exact absurd hkj hn2
          · rw [heq] at hfj; exact hf hfj
          · rw [heq] at hkj; exact absurd hkj (d34 _ hm3)
          · rw [heq] at hkj; exact absurd hkj (d35 _ hm3)
      · rw [if_neg h3]
        have hn3 : normKey c ∉ spdSyns := not_contains_not_mem h3
        by_cases h4 : timeSyns.contains (normKey c) = true
        · rw [if_pos h4]
          show applyRenames (renames cols) c =
            if findCol timeSyns cols = some c then "Time" else c
          have hm4 : normKey c ∈ timeSyns := contains_mem h4
          by_cases hf : findCol timeSyns cols = some c
          · rw [if_pos hf]
            apply applyRenames_of_unique
            · simp [renames, renameEntry, hf, List.mem_append]
            · intro p hp hpc
              rcases renames_key hp with ⟨_, hkj, _⟩ | ⟨_, hkj, _⟩ |
                  ⟨_, hkj, _⟩ | ⟨hfj, _, hc2⟩ | ⟨_, hkj, _⟩
              · rw [hpc] at hkj; exact absurd hkj hn1
              · rw [hpc] at hkj; exact absurd hkj hn2
              · rw [hpc] at hkj; exact absurd hkj hn3
              · obtain ⟨p1, p2⟩ := p
                simp only at hpc hc2
                rw [hpc, hc2]
              · rw [hpc] at hkj; exact absurd hkj (d45 _ hm4)
          · rw [if_neg hf]
            apply applyRenames_eq_self
            intro p hp heq
            rcases renames_key hp with ⟨_, hkj, _⟩ | ⟨_, hkj, _⟩ |
                ⟨_, hkj, _⟩ | ⟨hfj, _, _⟩ | ⟨_, hkj, _⟩
            · rw [heq] at hkj; exact absurd hkj hn1
            · rw [heq] at hkj; exact absurd hkj hn2
            · rw [heq] at hkj; exact absurd hkj hn3
            · rw [heq] at hfj; exact hf hfj
            · rw [heq] at hkj; exact absurd hkj (d45 _ hm4)
        · rw [if_neg h4]
          have hn4 : normKey c ∉ timeSyns := not_contains_not_mem h4
          by_cases h5 : rpmSyns.contains (normKey c) = true
          · rw [if_pos h5]
            show applyRenames (renames cols) c =
              if findCol rpmSyns cols = some c then "RPM" else c
            by_cases hf : findCol rpmSyns cols = some c
            · rw [if_pos hf]
              apply applyRenames_of_unique
              · simp [renames, renameEntry, hf, List.mem_append]
              · intro p hp hpc
                rcases renames_key hp with ⟨_, hkj, _⟩ | ⟨_, hkj, _⟩ |
                    ⟨_, hkj, _⟩ | ⟨_, hkj, _⟩ | ⟨hfj, _, hc2⟩
                · rw [hpc] at hkj; exact absurd hkj hn1
                · rw [hpc] at hkj; exact absurd hkj hn2
                · rw [hpc] at hkj; exact absurd hkj hn3
                · rw [hpc] at hkj; exact absurd hkj hn4
                · obtain ⟨p1, p2⟩ := p
                  simp only at hpc hc2
                  rw [hpc, hc2]
            · rw [if_neg hf]
              apply applyRenames_eq_self
              intro p hp heq
              rcases renames_key hp with ⟨_, hkj, _⟩ | ⟨_, hkj, _⟩ |
                  ⟨_, hkj, _⟩ | ⟨_, hkj, _⟩ | ⟨hfj, _, _⟩
              · rw [heq] at hkj; exact absurd hkj hn1
              · rw [heq] at hkj; exact absurd hkj hn2
              · rw [heq] at hkj; exact absurd hkj hn3
              · rw [heq] at hkj; exact absurd hkj hn4
              · rw [heq] at hfj; exact hf hfj
          · rw [if_neg h5]
            have hn5 : normKey c ∉ rpmSyns := not_contains_not_mem h5
            apply applyRenames_eq_self
            intro p hp heq
            rcases renames_key hp with ⟨_, hkj, _⟩ | ⟨_, hkj, _⟩ |
                ⟨_, hkj, _⟩ | ⟨_, hkj, _⟩ | ⟨_, hkj, _⟩
            · rw [heq] at hkj; exact absurd hkj hn1
            · rw [heq] at hkj; exact absurd hkj hn2
            · rw [heq] at hkj; exact absurd hkj hn3
            · rw [heq] at hkj; exact absurd hkj hn4
            · rw [heq] at hkj; exact absurd hkj hn5

/-- Claim C4: on a table with distinct column names, `normalize_columns`
renames to Lat, Lng, Speed, Time, RPM exactly those columns whose
lowercased, space- and underscore-stripped name lies in the corresponding
synonym set, taking the first matching column in column order for each
canonical name, and leaves every other column name unchanged
(`specRename` states exactly that description). -/
theorem normalize_columns_first_match (cols : List String)
    (_hnd : cols.Nodup) :
    normalizeColumns cols = cols.map (specRename cols) := by
  have hfun : applyRenames (renames cols) = specRename cols :=
    funext (applyRenames_renames cols)
  rw [normalizeColumns, hfun]

def colsW : List String :=
  ["UTC_datetime", "latitude", "Lon", "Speed MPH", "rpm", "Other", "lat"]

/-- Witness for C4: `latitude` (the first Lat match) is renamed while the
later-matching `lat` is untouched, and the other synonyms map to their
canonical names. -/
theorem normalize_columns_first_match_witness :
    colsW.Nodup ∧
      normalizeColumns colsW =
        ["Time", "Lat", "Lng", "Speed", "RPM", "Other", "lat"] :=
  ⟨by decide,
    Eq.trans (normalize_columns_first_match colsW (by decide)) (by decide)⟩
